import Mathlib

/-!
Verification development for the `applogger` Go package (junkd0g/applogger).

The package implements an NDJSON structured logger.  This file shallowly
embeds the log-entry construction and emission pipeline of
`applogger.go`:

* `GoValue` / `GoKey` / `Context` model Go `interface{}` values and
  `context.Context` value chains (a `context.Context` is modelled as the
  list of `WithValue` frames, innermost first; the `nil` context is
  `Option.none`).  Go interface equality distinguishes the dynamic type,
  so a plain `string` key and the unexported `contextKey` string type of
  `extractContextValues` are different constructors of `GoKey`.
* `AttrMap` models `map[string]interface{}` as an association list kept
  in insertion order; Go map iteration order is random and
  `encoding/json` sorts map keys, but no property below depends on the
  order, only on lookups and key sets.
* `extractContextValues`, `logInternal`, `getCallerInfo`, `Log`,
  `LogHTTP` and the `Close` path are translated from the source.
  Effectful steps (mutex, file writes, `os.Exit`) are modelled as an
  explicit event trace `Ev`.
* machine integers: the Go `int` log level and HTTP code are modelled as
  `Int` (no arithmetic near overflow occurs in the source); the
  `float64` duration is modelled as `Rat` — the only operation the
  source performs on it is the `encoding/json` `omitempty` zero test,
  which is exact (`NaN`/`Inf` marshal failures are outside this model,
  unsupported-value marshal failures are modelled via `GoValue.vChan`).
-/

mutual
/-- Go `interface{}` values that can be stored in a context or an
attribute map.  `vChan` stands for the JSON-unserializable values
(channels, functions): `encoding/json` returns an `UnsupportedTypeError`
for them.  `vMap` is a nested `map[string]interface{}` (entries as their
own inductive so that recursion over nested maps is structural). -/
inductive GoValue where
  | vStr (s : String)
  | vInt (n : Int)
  | vBool (b : Bool)
  | vChan (id : Nat)
  | vMap (m : GoValueEntries)

/-- Entry list of a nested `map[string]interface{}` value. -/
inductive GoValueEntries where
  | nil
  | cons (k : String) (v : GoValue) (rest : GoValueEntries)
end

/-- A Go context key: the dynamic type is part of interface equality, so
the unexported `contextKey` string type used by `extractContextValues`
never equals a plain `string` key holding the same characters. -/
inductive GoKey where
  | str (s : String)
  | ctxKey (s : String)
deriving DecidableEq

/-- A non-nil `context.Context`, as the chain of `WithValue` frames,
innermost first.  The `nil` context is represented by `Option.none`
around this type. -/
abbrev Context := List (GoKey × GoValue)

/-- `ctx.Value(k)`: innermost binding for the key, `nil` if absent. -/
def ctxValue (ctx : Context) (k : GoKey) : Option GoValue :=
  match ctx.find? (fun kv => kv.1 = k) with
  | some kv => some kv.2
  | none => none

/-- `map[string]interface{}`, as an association list in insertion order. -/
abbrev AttrMap := List (String × GoValue)

/-- Go map indexing `m[k]` (comma-ok form): the value stored at `k`. -/
def lookupAttr (m : AttrMap) (k : String) : Option GoValue :=
  match m.find? (fun kv => kv.1 = k) with
  | some kv => some kv.2
  | none => none

/-- Go map assignment `m[k] = v`: overwrite in place when the key is
present, otherwise add the new binding. -/
def insertAttr (m : AttrMap) (k : String) (v : GoValue) : AttrMap :=
  if m.any (fun kv => kv.1 = k) then
    m.map (fun kv => if kv.1 = k then (kv.1, v) else kv)
  else
    m ++ [(k, v)]

/-- The key set of an attribute map. -/
def attrKeys (m : AttrMap) : List String := m.map Prod.fst

/-- The fixed keys `extractContextValues` queries (source line 225). -/
def contextKeys : List String := ["user_id", "request_id", "session_id"]

/-- `extractContextValues` (source lines 216–234): a `nil` context
yields an empty map; otherwise each of the three expected keys, typed
with the unexported `contextKey` type, is looked up in the context and,
when non-nil, stored in the result map. -/
def extractContextValues (ctx : Option Context) : AttrMap :=
  match ctx with
  | none => []
  | some c =>
      contextKeys.foldl
        (fun attrs key =>
          match ctxValue c (GoKey.ctxKey key) with
          | some v => insertAttr attrs key v
          | none => attrs)
        []

/-- The §4.3 attribute resolver: start from a copy of the defaults, then
insert/overwrite every context-supplied binding. -/
def mergeAttrs (defaults ctxFields : AttrMap) : AttrMap :=
  ctxFields.foldl (fun acc kv => insertAttr acc kv.1 kv.2) defaults

/-- The body of the extraction loop, named for the lemmas below. -/
def extractStep (c : Context) (attrs : AttrMap) (key : String) : AttrMap :=
  match ctxValue c (GoKey.ctxKey key) with
  | some v => insertAttr attrs key v
  | none => attrs

section SerializationModel

mutual
/-- Whether `encoding/json` can marshal this value; channels (and the
other unsupported kinds they stand for) make `json.Marshal` fail with an
`UnsupportedTypeError`. -/
def serializableV : GoValue → Bool
  | .vStr _ => true
  | .vInt _ => true
  | .vBool _ => true
  | .vChan _ => false
  | .vMap m => serializableE m

/-- Serializability of the entries of a nested map value. -/
def serializableE : GoValueEntries → Bool
  | .nil => true
  | .cons _ v rest => serializableV v && serializableE rest
end

/-- Whether `json.Marshal` succeeds on an attribute map. -/
def attrsSerializable (m : AttrMap) : Bool :=
  m.all (fun kv => serializableV kv.2)

/-- JSON string escaping for one character (quote, backslash and the
common control characters; `encoding/json` additionally escapes a few
HTML-sensitive characters, which no property below observes). -/
def jsonEscapeChar (c : Char) : String :=
  if c = '"' then "\\\""
  else if c = '\\' then "\\\\"
  else if c = '\n' then "\\n"
  else if c = '\r' then "\\r"
  else if c = '\t' then "\\t"
  else String.singleton c

/-- A JSON string literal. -/
def jsonStr (s : String) : String :=
  "\"" ++ String.join (s.data.map jsonEscapeChar) ++ "\""

mutual
/-- JSON rendering of a Go value.  `vChan` renders as `null` but is
unreachable in an emitted line because `marshalEntry` fails first.
`encoding/json` sorts the keys of a nested map; entries are rendered
here in stored order, which no property below observes. -/
def renderValue : GoValue → String
  | .vStr s => jsonStr s
  | .vInt n => toString n
  | .vBool b => if b then "true" else "false"
  | .vChan _ => "null"
  | .vMap m => "\x7b" ++ renderEntries m ++ "\x7d"

/-- JSON rendering of nested map entries. -/
def renderEntries : GoValueEntries → String
  | .nil => ""
  | .cons k v .nil => jsonStr k ++ ":" ++ renderValue v
  | .cons k v rest => jsonStr k ++ ":" ++ renderValue v ++ "," ++ renderEntries rest
end

/-- JSON rendering of the attributes object. -/
def renderAttrs (m : AttrMap) : String :=
  "\x7b" ++
    String.intercalate "," (m.map (fun kv => jsonStr kv.1 ++ ":" ++ renderValue kv.2)) ++
    "\x7d"

end SerializationModel

section EntryModel

/-- `LogLevel.String()` (source lines 64–79): the five declared levels
map to their uppercase names, any other integer maps to `"UNKNOWN"`. -/
def levelString (l : Int) : String :=
  if l = 0 then "DEBUG"
  else if l = 1 then "INFO"
  else if l = 2 then "WARN"
  else if l = 3 then "ERROR"
  else if l = 4 then "FATAL"
  else "UNKNOWN"

/-- The `Fatal` level constant (`iota` order, source lines 55–61). -/
def Fatal : Int := 4

/-- A wall-clock instant as the Go clock reports it (calendar fields
plus nanoseconds). -/
structure GoTime where
  year : Nat
  month : Nat
  day : Nat
  hour : Nat
  minute : Nat
  second : Nat
  nano : Nat
deriving DecidableEq

/-- Decimal digits of `n`, most significant first (fuel-based so that
the recursion is structural and kernel-reducible; the fuel `n + 1`
always suffices since `n / 10 < n` for `n ≥ 10`). -/
def decDigitsAux : Nat → Nat → List Char
  | 0, _ => []
  | fuel + 1, n =>
      if n < 10 then [Nat.digitChar n]
      else decDigitsAux fuel (n / 10) ++ [Nat.digitChar (n % 10)]

/-- Decimal representation of a natural number. -/
def decRepr (n : Nat) : List Char := decDigitsAux (n + 1) n

/-- Zero-pad to a width, printing more digits when the number needs
them — exactly Go `time`'s `appendInt` padding used by `Format`. -/
def padTo (w n : Nat) : String :=
  String.mk (List.replicate (w - (decRepr n).length) '0' ++ decRepr n)

/-- `time.Now().Format("20060102150405")` (source line 154): the wall
clock at one-second precision as 4+2+2+2+2+2 zero-padded decimal
fields; sub-second precision is discarded. -/
def formatCompact (t : GoTime) : String :=
  padTo 4 t.year ++ padTo 2 t.month ++ padTo 2 t.day ++
    padTo 2 t.hour ++ padTo 2 t.minute ++ padTo 2 t.second

/-- RFC-3339-style rendering of `time.Time` used by its JSON
marshaller; the sub-second digits and UTC-offset details are elided
(no property below observes the timestamp text). -/
def renderTime (t : GoTime) : String :=
  padTo 4 t.year ++ "-" ++ padTo 2 t.month ++ "-" ++ padTo 2 t.day ++ "T" ++
    padTo 2 t.hour ++ ":" ++ padTo 2 t.minute ++ ":" ++ padTo 2 t.second ++ "Z"

/-- `LogEntry` (source lines 82–92). -/
structure LogEntry where
  pid : String
  level : String
  pkg : String
  func : String
  message : String
  timestamp : GoTime
  code : Int
  duration : Rat
  attributes : AttrMap

/-- The serialized key/rendered-value pairs of an entry, in the struct
field order `encoding/json` uses.  The `omitempty` tags on `code`,
`duration` and `attributes` (source lines 89–91) omit the field when the
value is the zero value: `0`, `0.0`, or an empty (or nil) map. -/
def entryFields (e : LogEntry) : List (String × String) :=
  [("pid", jsonStr e.pid), ("level", jsonStr e.level), ("package", jsonStr e.pkg),
   ("func", jsonStr e.func), ("message", jsonStr e.message),
   ("timestamp", jsonStr (renderTime e.timestamp))] ++
  (if e.code = 0 then [] else [("code", toString e.code)]) ++
  (if e.duration = 0 then [] else [("duration", toString e.duration)]) ++
  (if e.attributes.isEmpty then [] else [("attributes", renderAttrs e.attributes)])

/-- The NDJSON line `json.Marshal` produces for an entry. -/
def renderEntry (e : LogEntry) : String :=
  "\x7b" ++
    String.intercalate "," ((entryFields e).map (fun kv => jsonStr kv.1 ++ ":" ++ kv.2)) ++
    "\x7d"

/-- The error text of a failed `json.Marshal` (the Go text also names
the offending type; the suffix is irrelevant to every property). -/
def marshalErrMsg : String := "json: unsupported type"

/-- `json.Marshal(entry)` (source line 173): fails exactly when the
attribute map holds an unsupported value. -/
def marshalEntry (e : LogEntry) : Except String String :=
  if attrsSerializable e.attributes then Except.ok (renderEntry e)
  else Except.error marshalErrMsg

end EntryModel

section EmissionModel

/-- Observable effects of one call, in program order: mutex acquisition
and release, a line written to the primary sink (the log file the
internal `log.Logger` wraps), and `os.Exit`. -/
inductive Ev where
  | lock
  | unlock
  | writeSink (line : String)
  | exit (code : Nat)
deriving DecidableEq

/-- The `LogEntry` value `logInternal` constructs (source lines
160–170).  Caller attribution is passed in as the `pkgName`/`funcName`
pair `getCallerInfo` produced; `tPid` and `tStamp` are the two `time.Now()`
readings of lines 154 and 166. -/
def entryOf (pkgName funcName : String) (ctx : Option Context) (level : Int)
    (msg : String) (code : Int) (duration : Rat) (tPid tStamp : GoTime) : LogEntry :=
  { pid := formatCompact tPid
    level := levelString level
    pkg := pkgName
    func := funcName
    message := msg
    timestamp := tStamp
    code := code
    duration := duration
    attributes := extractContextValues ctx }

/-- `logInternal` (source lines 146–186) as its event trace: acquire the
lock; on marshal failure report through the same `log.Logger` — i.e. to
the primary sink — and return (the deferred unlock runs); on success
write the line, then either `os.Exit(1)` for the Fatal level (the
deferred unlock never runs: `os.Exit` bypasses deferred calls) or
return and unlock. -/
def logInternal (pkgName funcName : String) (ctx : Option Context) (level : Int)
    (msg : String) (code : Int) (duration : Rat) (tPid tStamp : GoTime) : List Ev :=
  let entry := entryOf pkgName funcName ctx level msg code duration tPid tStamp
  Ev.lock ::
    (match marshalEntry entry with
     | Except.error e => [Ev.writeSink ("Could not marshal log entry: " ++ e), Ev.unlock]
     | Except.ok data =>
         Ev.writeSink data ::
           (if level = Fatal then [Ev.exit 1] else [Ev.unlock]))

/-- `Log` (source lines 126–128): delegates with code 0 and duration 0. -/
def Log (pkgName funcName : String) (ctx : Option Context) (level : Int)
    (msg : String) (tPid tStamp : GoTime) : List Ev :=
  logInternal pkgName funcName ctx level msg 0 0 tPid tStamp

/-- `LogHTTP` (source lines 131–133): delegates with the given code and
duration. -/
def LogHTTP (pkgName funcName : String) (ctx : Option Context) (level : Int)
    (msg : String) (code : Int) (duration : Rat) (tPid tStamp : GoTime) : List Ev :=
  logInternal pkgName funcName ctx level msg code duration tPid tStamp

/-- The lines a trace writes to the primary sink, in order. -/
def writesOf (t : List Ev) : List String :=
  t.filterMap (fun e => match e with | Ev.writeSink s => some s | _ => none)

/-- Whether a trace terminates the process. -/
def hasExit (t : List Ev) : Bool :=
  t.any (fun e => match e with | Ev.exit _ => true | _ => false)

end EmissionModel

section CloseModel

/-- The `*os.File` a `Logger` owns, reduced to the one bit `Close`
observes. -/
structure FileHandle where
  closed : Bool
deriving DecidableEq

/-- The `Logger` lifecycle state: the `file` field (source line 98).
`Close` (source lines 116–123) never sets it to `nil`, so a second call
reaches `file.Close()` again. -/
structure LoggerState where
  file : Option FileHandle
deriving DecidableEq

/-- The state a successful `NewLogger` (source lines 102–113) returns:
an open file handle. -/
def newLoggerState : LoggerState :=
  { file := some { closed := false } }

/-- The state after `Close`: the handle, if any, is closed; the field
stays non-nil exactly as in the source. -/
def closeState (lg : LoggerState) : LoggerState :=
  match lg.file with
  | none => lg
  | some _ => { file := some { closed := true } }

/-- The error `Close` returns: `nil` when `file` is `nil` or the handle
was open; `os.File.Close` on an already-closed handle returns the
"file already closed" error (and never panics). -/
def closeErr (lg : LoggerState) : Option String :=
  match lg.file with
  | none => none
  | some f => if f.closed then some "file already closed" else none

/-- The event trace of `Close`: it takes the same mutex as the writers
and writes nothing to the sink. -/
def closeTrace (_ : LoggerState) : List Ev := [Ev.lock, Ev.unlock]

end CloseModel

section CallerInfoModel

/-- Index of the last `'.'` in the character list, the value Go's
backwards byte scan (source lines 201–204) leaves in `lastDot` when it
is non-negative (`'.'` is a one-byte code point, so the byte-wise and
character-wise last-dot positions coincide on valid UTF-8). -/
def lastDotIdx : List Char → Option Nat
  | [] => none
  | c :: rest =>
      match lastDotIdx rest with
      | some i => some (i + 1)
      | none => if c = '.' then some 0 else none

/-- `getCallerInfo` (source lines 189–207).  The `frame` oracle stands
for the runtime: `none` models `runtime.Caller` reporting `ok = false`,
`some none` models a `nil` `runtime.FuncForPC` result, and
`some (some fullName)` a resolved symbol name.  The result `none`
models the slice-bounds panic of `fullName[:lastDot]` when the loop
terminates with `lastDot = -1`, i.e. when the name contains no `'.'`;
otherwise the name is split after the last `'.'`. -/
def getCallerInfo (frame : Option (Option String)) : Option (String × String) :=
  match frame with
  | none => some ("unknown", "unknown")
  | some none => some ("unknown", "unknown")
  | some (some fullName) =>
      match lastDotIdx fullName.data with
      | none => none
      | some i =>
          some (String.mk (fullName.data.take i), String.mk (fullName.data.drop (i + 1)))

end CallerInfoModel

section DefaultFieldsModel

/-- Modelled from the spec: the `Logger` with per-instance default
attributes (§2 Logger, §4.5 WithFields).  The `WithFields` operation and
the default-attribute map are called by the package's test
(`TestLogger_WithFields`) and example programs but are missing from the
provided `applogger.go`, whose `Logger` carries no field map; the
`sinkId` stands for the shared sink/lock pair. -/
structure SpecLogger where
  sinkId : Nat
  defaults : AttrMap

/-- Modelled from the spec: `WithFields(extra)` returns a new Logger
sharing sink and lock, whose defaults are the receiver's defaults
overlaid by `extra` with right-hand-wins precedence (§4.5); the receiver
is not mutated (this model is pure, so non-mutation is by
construction). -/
def withFields (lg : SpecLogger) (extra : AttrMap) : SpecLogger :=
  { sinkId := lg.sinkId, defaults := mergeAttrs lg.defaults extra }

/-- Modelled from the spec: the attribute map an emission through a
defaults-carrying Logger serializes — the §4.3 resolve of the logger's
defaults with the context-extracted fields, context winning on
collision. -/
def emitAttrs (lg : SpecLogger) (ctx : Option Context) : AttrMap :=
  mergeAttrs lg.defaults (extractContextValues ctx)

end DefaultFieldsModel

section ConcurrencyModel

/-- One Log/LogHTTP call a thread issues: all per-call inputs including
the two clock readings. -/
structure LogCall where
  pkg : String
  fn : String
  ctx : Option Context
  level : Int
  msg : String
  code : Int
  duration : Rat
  tPid : GoTime
  tStamp : GoTime

/-- The trace the call produces. -/
def callTrace (c : LogCall) : List Ev :=
  logInternal c.pkg c.fn c.ctx c.level c.msg c.code c.duration c.tPid c.tStamp

/-- The entry the call constructs. -/
def callEntry (c : LogCall) : LogEntry :=
  entryOf c.pkg c.fn c.ctx c.level c.msg c.code c.duration c.tPid c.tStamp

/-- The complete NDJSON line the call emits when it serializes. -/
def callLine (c : LogCall) : String := renderEntry (callEntry c)

/-- A call that serializes successfully and is not Fatal (a Fatal call
terminates the process, after which no further calls can be issued). -/
def callOk (c : LogCall) : Bool :=
  attrsSerializable (extractContextValues c.ctx) && !(c.level == 4)

/-- Remove the next pending call of thread `i`.  `none` when the thread
does not exist or has no pending call. -/
def popThread : Nat → List (List LogCall) → Option (LogCall × List (List LogCall))
  | _, [] => none
  | 0, [] :: _ => none
  | 0, (c :: tl) :: rest => some (c, tl :: rest)
  | i + 1, th :: rest =>
      match popThread i rest with
      | some (c, rest') => some (c, th :: rest')
      | none => none

/-- Interleaved execution of concurrent callers against one shared
sink.  The mutex in `logInternal` makes each call's critical section
atomic, so a scheduler step is one lock acquisition: the chosen
thread's next call runs to completion and appends its writes to the
sink.  A trace containing `os.Exit` ends the process with the sink as
written so far.  A schedule naming an empty or missing thread is
invalid (`none`); a completed run requires every thread drained. -/
def runSched : List Nat → List (List LogCall) → List String → Option (List String)
  | [], ths, sink => if ths.all List.isEmpty then some sink else none
  | i :: rest, ths, sink =>
      match popThread i ths with
      | none => none
      | some (c, ths') =>
          if hasExit (callTrace c) then some (sink ++ writesOf (callTrace c))
          else runSched rest ths' (sink ++ writesOf (callTrace c))

end ConcurrencyModel

section ConcreteInputs

/-- A fixed clock reading used by concrete instantiations below. -/
def wTime : GoTime := ⟨2026, 10, 11, 8, 30, 5, 0⟩

/-- A plain Info-level log call with an absent context. -/
def wCall : LogCall :=
  { pkg := "main", fn := "main", ctx := none, level := 1, msg := "tick",
    code := 0, duration := 0, tPid := wTime, tStamp := wTime }

/-- A context carrying a channel under the typed `user_id` key: the
extracted attribute map is then not JSON-serializable. -/
def badCtx : Option Context := some [(GoKey.ctxKey "user_id", GoValue.vChan 0)]

end ConcreteInputs


section AttrLemmas

theorem lookupAttr_nil (k : String) : lookupAttr [] k = none := rfl

theorem lookupAttr_cons (kv : String × GoValue) (m : AttrMap) (k : String) :
    lookupAttr (kv :: m) k = if kv.1 = k then some kv.2 else lookupAttr m k := by
  by_cases h : kv.1 = k <;> simp [lookupAttr, List.find?, h]

theorem lookupAttr_eq_none_iff (m : AttrMap) (k : String) :
    lookupAttr m k = none ↔ k ∉ attrKeys m := by
  induction m with
  | nil => simp [lookupAttr, attrKeys]
  | cons kv tl ih =>
      rw [lookupAttr_cons]
      by_cases h : kv.1 = k
      · simp [h, attrKeys]
      · simp only [h, if_false, ih, attrKeys, List.map_cons, List.mem_cons]
        constructor
        · intro hn hc
          rcases hc with hc | hc
          · exact h hc.symm
          · exact hn hc
        · intro hn hc
          exact hn (Or.inr hc)

theorem lookupAttr_isSome_iff (m : AttrMap) (k : String) :
    (lookupAttr m k).isSome = true ↔ k ∈ attrKeys m := by
  constructor
  · intro hs
    by_contra hmem
    rw [← lookupAttr_eq_none_iff] at hmem
    rw [hmem] at hs
    simp at hs
  · intro hmem
    cases hl : lookupAttr m k with
    | none => exact absurd hmem ((lookupAttr_eq_none_iff m k).mp hl)
    | some v => rfl

theorem any_key_iff (m : AttrMap) (k : String) :
    (m.any (fun kv => kv.1 = k)) = true ↔ k ∈ attrKeys m := by
  simp only [List.any_eq_true, decide_eq_true_eq, attrKeys, List.mem_map]

theorem attrKeys_insertAttr (m : AttrMap) (k : String) (v : GoValue) :
    attrKeys (insertAttr m k v) =
      if k ∈ attrKeys m then attrKeys m else attrKeys m ++ [k] := by
  unfold insertAttr
  by_cases h : k ∈ attrKeys m
  · rw [if_pos ((any_key_iff m k).mpr h), if_pos h]
    unfold attrKeys
    rw [List.map_map]
    apply List.map_congr_left
    intro kv _
    by_cases hk : kv.1 = k <;> simp [hk]
  · rw [if_neg (fun hh => h ((any_key_iff m k).mp hh)), if_neg h]
    simp [attrKeys]

theorem lookupAttr_map_overwrite_self (m : AttrMap) (k : String) (v : GoValue)
    (h : k ∈ attrKeys m) :
    lookupAttr (m.map (fun kv => if kv.1 = k then (kv.1, v) else kv)) k = some v := by
  induction m with
  | nil => simp [attrKeys] at h
  | cons kv tl ih =>
      by_cases hk : kv.1 = k
      · simp only [List.map_cons, if_pos hk]
        rw [lookupAttr_cons]
        simp [hk]
      · simp only [List.map_cons, if_neg hk]
        rw [lookupAttr_cons]
        simp only [hk, if_false]
        apply ih
        simp only [attrKeys, List.map_cons, List.mem_cons] at h
        rcases h with h | h
        · exact absurd h.symm hk
        · exact h

theorem lookupAttr_append_single_self (m : AttrMap) (k : String) (v : GoValue) :
    k ∉ attrKeys m → lookupAttr (m ++ [(k, v)]) k = some v := by
  induction m with
  | nil =>
      intro _
      rw [List.nil_append, lookupAttr_cons]
      simp
  | cons kv tl ih =>
      intro h
      rw [List.cons_append, lookupAttr_cons]
      simp only [attrKeys, List.map_cons, List.mem_cons] at h
      push_neg at h
      have hk : ¬ kv.1 = k := fun hc => h.1 hc.symm
      simp only [hk, if_false]
      exact ih (by
        intro hc
        exact h.2 (by simpa [attrKeys] using hc))

theorem lookupAttr_insertAttr_self (m : AttrMap) (k : String) (v : GoValue) :
    lookupAttr (insertAttr m k v) k = some v := by
  unfold insertAttr
  by_cases h : k ∈ attrKeys m
  · rw [if_pos ((any_key_iff m k).mpr h)]
    exact lookupAttr_map_overwrite_self m k v h
  · rw [if_neg (fun hh => h ((any_key_iff m k).mp hh))]
    exact lookupAttr_append_single_self m k v h

theorem lookupAttr_map_overwrite_ne (m : AttrMap) (k k' : String) (v : GoValue)
    (hne : k' ≠ k) :
    lookupAttr (m.map (fun kv => if kv.1 = k then (kv.1, v) else kv)) k'
      = lookupAttr m k' := by
  induction m with
  | nil => rfl
  | cons kv tl ih =>
      by_cases hk : kv.1 = k
      · simp only [List.map_cons, if_pos hk]
        rw [lookupAttr_cons, lookupAttr_cons]
        have hh : ¬ kv.1 = k' := by rw [hk]; exact fun hc => hne hc.symm
        simp only [hh, if_false]
        exact ih
      · simp only [List.map_cons, if_neg hk]
        rw [lookupAttr_cons, lookupAttr_cons]
        by_cases hk' : kv.1 = k'
        · simp [hk']
        · simp only [hk', if_false]
          exact ih

theorem lookupAttr_append_single_ne (m : AttrMap) (k k' : String) (v : GoValue)
    (hne : k' ≠ k) :
    lookupAttr (m ++ [(k, v)]) k' = lookupAttr m k' := by
  induction m with
  | nil =>
      rw [List.nil_append, lookupAttr_cons]
      have hk : ¬ k = k' := fun hc => hne hc.symm
      simp [hk, lookupAttr]
  | cons kv tl ih =>
      rw [List.cons_append, lookupAttr_cons, lookupAttr_cons]
      by_cases hk' : kv.1 = k'
      · simp [hk']
      · simp only [hk', if_false]
        exact ih

theorem lookupAttr_insertAttr_ne (m : AttrMap) (k k' : String) (v : GoValue)
    (hne : k' ≠ k) :
    lookupAttr (insertAttr m k v) k' = lookupAttr m k' := by
  unfold insertAttr
  by_cases h : (m.any (fun kv => kv.1 = k)) = true
  · rw [if_pos h]
    exact lookupAttr_map_overwrite_ne m k k' v hne
  · rw [if_neg h]
    exact lookupAttr_append_single_ne m k k' v hne

theorem lookupAttr_mergeAttrs (d c : AttrMap) (k : String)
    (hc : (attrKeys c).Nodup) :
    lookupAttr (mergeAttrs d c) k =
      match lookupAttr c k with
      | some v => some v
      | none => lookupAttr d k := by
  induction c generalizing d with
  | nil => simp [mergeAttrs, lookupAttr]
  | cons kv tl ih =>
      have hcons : attrKeys (kv :: tl) = kv.1 :: attrKeys tl := rfl
      rw [hcons] at hc
      have hnd : (attrKeys tl).Nodup := hc.of_cons
      have hknotin : kv.1 ∉ attrKeys tl := (List.nodup_cons.mp hc).1
      show lookupAttr (mergeAttrs (insertAttr d kv.1 kv.2) tl) k = _
      rw [ih _ hnd, lookupAttr_cons]
      by_cases hk : kv.1 = k
      · subst hk
        rw [(lookupAttr_eq_none_iff tl kv.1).mpr hknotin]
        simp [lookupAttr_insertAttr_self]
      · simp only [hk, if_false]
        cases h : lookupAttr tl k
        · simp [lookupAttr_insertAttr_ne d kv.1 k kv.2 (fun hc2 => hk hc2.symm)]
        · simp

theorem mem_attrKeys_mergeAttrs (d c : AttrMap) (k : String) :
    k ∈ attrKeys (mergeAttrs d c) ↔ k ∈ attrKeys d ∨ k ∈ attrKeys c := by
  induction c generalizing d with
  | nil => simp [mergeAttrs, attrKeys]
  | cons kv tl ih =>
      show k ∈ attrKeys (mergeAttrs (insertAttr d kv.1 kv.2) tl) ↔ _
      rw [ih, attrKeys_insertAttr]
      by_cases h : kv.1 ∈ attrKeys d
      · rw [if_pos h]
        simp only [attrKeys, List.map_cons, List.mem_cons]
        constructor
        · rintro (hd | ht)
          · exact Or.inl hd
          · exact Or.inr (Or.inr ht)
        · rintro (hd | rfl | ht)
          · exact Or.inl hd
          · exact Or.inl h
          · exact Or.inr ht
      · rw [if_neg h]
        simp only [attrKeys, List.map_cons, List.mem_cons, List.mem_append,
          List.mem_singleton, List.not_mem_nil, or_false]
        constructor
        · rintro ((hd | rfl) | ht)
          · exact Or.inl hd
          · exact Or.inr (Or.inl rfl)
          · exact Or.inr (Or.inr ht)
        · rintro (hd | rfl | ht)
          · exact Or.inl (Or.inl hd)
          · exact Or.inl (Or.inr rfl)
          · exact Or.inr ht

end AttrLemmas

section ExtractLemmas


theorem extractContextValues_some (c : Context) :
    extractContextValues (some c) = contextKeys.foldl (extractStep c) [] := rfl

theorem attrKeys_extractStep_fold (c : Context) :
    ∀ (keys : List String) (init : AttrMap) (k : String),
      k ∈ attrKeys (keys.foldl (extractStep c) init) →
      k ∈ attrKeys init ∨ k ∈ keys := by
  intro keys
  induction keys with
  | nil =>
      intro init k h
      exact Or.inl h
  | cons key rest ih =>
      intro init k h
      rw [List.foldl_cons] at h
      rcases hcv : ctxValue c (GoKey.ctxKey key) with _ | v
      · rw [extractStep, hcv] at h
        rcases ih init k h with h' | h'
        · exact Or.inl h'
        · exact Or.inr (List.mem_cons_of_mem _ h')
      · rw [extractStep, hcv] at h
        rcases ih _ k h with h' | h'
        · rw [attrKeys_insertAttr] at h'
          by_cases hmem : key ∈ attrKeys init
          · rw [if_pos hmem] at h'
            exact Or.inl h'
          · rw [if_neg hmem] at h'
            rcases List.mem_append.mp h' with h'' | h''
            · exact Or.inl h''
            · rw [List.mem_singleton] at h''
              exact Or.inr (h'' ▸ List.mem_cons_self _ _)
        · exact Or.inr (List.mem_cons_of_mem _ h')

/-- Every key the extraction can produce is one of the three expected keys. -/
theorem attrKeys_extractContextValues (ctx : Option Context) :
    ∀ k ∈ attrKeys (extractContextValues ctx), k ∈ contextKeys := by
  cases ctx with
  | none =>
      intro k h
      simp [extractContextValues, attrKeys] at h
  | some c =>
      intro k h
      rw [extractContextValues_some] at h
      rcases attrKeys_extractStep_fold c contextKeys [] k h with h' | h'
      · simp [attrKeys] at h'
      · exact h'

/-- Closed form of the extraction on a non-nil context: each of the three
expected keys is looked up individually and contributes its own binding
when present.  There is no field-set retrieved under a single marker. -/
theorem extractContextValues_some_eq (c : Context) :
    extractContextValues (some c) =
      (match ctxValue c (GoKey.ctxKey "user_id") with
       | some v => [("user_id", v)] | none => []) ++
      (match ctxValue c (GoKey.ctxKey "request_id") with
       | some v => [("request_id", v)] | none => []) ++
      (match ctxValue c (GoKey.ctxKey "session_id") with
       | some v => [("session_id", v)] | none => []) := by
  rw [extractContextValues_some]
  unfold contextKeys
  simp only [List.foldl_cons, List.foldl_nil]
  rcases h1 : ctxValue c (GoKey.ctxKey "user_id") with _ | v1 <;>
    rcases h2 : ctxValue c (GoKey.ctxKey "request_id") with _ | v2 <;>
      rcases h3 : ctxValue c (GoKey.ctxKey "session_id") with _ | v3 <;>
        simp [extractStep, h1, h2, h3, insertAttr]

end ExtractLemmas

section DigitLemmas

theorem decDigitsAux_len_le (fuel : Nat) :
    ∀ n k : Nat, n < fuel → n < 10 ^ k → 1 ≤ k →
      (decDigitsAux fuel n).length ≤ k := by
  induction fuel with
  | zero =>
      intro n k h _ _
      omega
  | succ fuel ih =>
      intro n k hfuel hpow hk
      unfold decDigitsAux
      by_cases h10 : n < 10
      · rw [if_pos h10]
        simpa using hk
      · rw [if_neg h10]
        rw [List.length_append, List.length_singleton]
        have hk2 : 2 ≤ k := by
          by_contra hc
          have hk1 : k = 1 := by omega
          rw [hk1, pow_one] at hpow
          exact h10 hpow
        have hdivn : n / 10 < n := Nat.div_lt_self (by omega) (by omega)
        have hdiv_lt : n / 10 < fuel := by omega
        have hdivpow : n / 10 < 10 ^ (k - 1) := by
          rw [Nat.div_lt_iff_lt_mul (by norm_num)]
          calc n < 10 ^ k := hpow
            _ = 10 ^ (k - 1) * 10 := by
                rw [← pow_succ]
                congr 1
                omega
        have := ih (n / 10) (k - 1) hdiv_lt hdivpow (by omega)
        omega

theorem decDigitsAux_all_digits (fuel : Nat) :
    ∀ n, ∀ ch ∈ decDigitsAux fuel n, ch.isDigit = true := by
  induction fuel with
  | zero =>
      intro n ch hch
      simp [decDigitsAux] at hch
  | succ fuel ih =>
      intro n ch hch
      unfold decDigitsAux at hch
      by_cases h10 : n < 10
      · rw [if_pos h10] at hch
        rw [List.mem_singleton] at hch
        subst hch
        interval_cases n <;> decide
      · rw [if_neg h10] at hch
        rw [List.mem_append] at hch
        rcases hch with hch | hch
        · exact ih (n / 10) ch hch
        · rw [List.mem_singleton] at hch
          subst hch
          have hm : n % 10 < 10 := Nat.mod_lt _ (by omega)
          set m := n % 10 with hmdef
          interval_cases m <;> decide

theorem decRepr_len_le (n k : Nat) (hpow : n < 10 ^ k) (hk : 1 ≤ k) :
    (decRepr n).length ≤ k :=
  decDigitsAux_len_le (n + 1) n k (Nat.lt_succ_self n) hpow hk

theorem string_mk_length (l : List Char) : (String.mk l).length = l.length := rfl

theorem padTo_length (w n : Nat) (h : (decRepr n).length ≤ w) :
    (padTo w n).length = w := by
  unfold padTo
  rw [string_mk_length, List.length_append, List.length_replicate]
  omega

theorem padTo_all_digits (w n : Nat) :
    ∀ ch ∈ (padTo w n).data, ch.isDigit = true := by
  intro ch hch
  unfold padTo at hch
  rw [show (String.mk (List.replicate (w - (decRepr n).length) '0' ++ decRepr n)).data
        = List.replicate (w - (decRepr n).length) '0' ++ decRepr n from rfl,
    List.mem_append] at hch
  rcases hch with hch | hch
  · rw [List.eq_of_mem_replicate hch]
    decide
  · exact decDigitsAux_all_digits (n + 1) n ch hch

end DigitLemmas

section ClaimC1

/-- Claim C1: for every log emission the attribute map of the emitted
entry is the merge of the logger's default fields with the
context-supplied fields — a copy of the defaults with each context key
inserted/overwritten, so that the context value wins every key
collision; e.g. defaults {a:1, b:2} merged with context {b:3, c:4}
yields {a:1, b:3, c:4}.  (The defaults-carrying logger is modelled from
the spec, its code being absent from the provided source.) -/
theorem emitted_attributes_context_wins :
    (∀ (lg : SpecLogger) (ctx : Option Context),
      emitAttrs lg ctx = mergeAttrs lg.defaults (extractContextValues ctx)) ∧
    (∀ (defaults ctxFields : AttrMap) (k : String),
      (attrKeys ctxFields).Nodup →
      lookupAttr (mergeAttrs defaults ctxFields) k =
        match lookupAttr ctxFields k with
        | some v => some v
        | none => lookupAttr defaults k) ∧
    mergeAttrs [("a", GoValue.vInt 1), ("b", GoValue.vInt 2)]
        [("b", GoValue.vInt 3), ("c", GoValue.vInt 4)] =
      [("a", GoValue.vInt 1), ("b", GoValue.vInt 3), ("c", GoValue.vInt 4)] :=
  ⟨fun _ _ => rfl, fun d c k hc => lookupAttr_mergeAttrs d c k hc, rfl⟩

/-- Concrete instance of C1: a colliding key resolves to the
context-supplied value. -/
theorem emitted_attributes_context_wins_witness :
    lookupAttr (mergeAttrs [("a", GoValue.vInt 1)] [("a", GoValue.vInt 2)]) "a"
      = some (GoValue.vInt 2) := by
  have h := emitted_attributes_context_wins.2.1
    [("a", GoValue.vInt 1)] [("a", GoValue.vInt 2)] "a" (by decide)
  rw [h]
  rfl

end ClaimC1

section ClaimC3

/-- Claim C3: `WithFields(extra)` is pure and non-mutating — it returns
a new Logger sharing sink and lock whose defaults are the receiver's
defaults overlaid by `extra` (right-hand wins), and the receiver is
unaffected: after `child := parent.WithFields({x:1})`, logging through
`parent` never carries "x" while logging through `child` always does.
(Modelled from the spec: `WithFields` is called by the package's test
and examples but absent from the provided source.) -/
theorem withFields_pure_overlay :
    ∀ (parent : SpecLogger) (extra : AttrMap) (ctx : Option Context),
      (withFields parent extra).sinkId = parent.sinkId ∧
      (withFields parent extra).defaults = mergeAttrs parent.defaults extra ∧
      ("x" ∉ attrKeys parent.defaults →
        lookupAttr (emitAttrs parent ctx) "x" = none ∧
        (lookupAttr (emitAttrs (withFields parent [("x", GoValue.vInt 1)]) ctx) "x").isSome
          = true) := by
  intro parent extra ctx
  refine ⟨rfl, rfl, fun hx => ⟨?_, ?_⟩⟩
  · rw [lookupAttr_eq_none_iff]
    intro hmem
    rcases (mem_attrKeys_mergeAttrs _ _ _).mp hmem with h | h
    · exact hx h
    · have := attrKeys_extractContextValues ctx "x" h
      simp [contextKeys] at this
  · rw [lookupAttr_isSome_iff]
    apply (mem_attrKeys_mergeAttrs _ _ _).mpr
    left
    show "x" ∈ attrKeys (mergeAttrs parent.defaults [("x", GoValue.vInt 1)])
    apply (mem_attrKeys_mergeAttrs _ _ _).mpr
    right
    simp [attrKeys]

/-- Concrete instance of C3 at an empty parent and absent context. -/
theorem withFields_pure_overlay_witness :
    lookupAttr (emitAttrs ⟨0, []⟩ none) "x" = none ∧
    (lookupAttr (emitAttrs (withFields ⟨0, []⟩ [("x", GoValue.vInt 1)]) none) "x").isSome
      = true :=
  (withFields_pure_overlay ⟨0, []⟩ [] none).2.2 (by decide)

end ClaimC3

section ClaimC6

/-- Claim C6 is false on the code: no single well-known marker key
retrieves an attached field-set.  A context carrying a field-set map
under the marker `"applogger_fields"` (the key the second example
program uses), whether stored under a plain string key or under the
extraction's own typed key, extracts to the empty attribute map — the
field-set's key "custom" never becomes an attribute candidate. -/
theorem context_fieldset_marker_counterexample :
    extractContextValues (some [(GoKey.str "applogger_fields",
        GoValue.vMap (GoValueEntries.cons "custom" (GoValue.vStr "extra info")
          GoValueEntries.nil))]) = [] ∧
    extractContextValues (some [(GoKey.ctxKey "applogger_fields",
        GoValue.vMap (GoValueEntries.cons "custom" (GoValue.vStr "extra info")
          GoValueEntries.nil))]) = [] :=
  ⟨rfl, rfl⟩

/-- Claim C6 amended: extraction is per-key, not field-set based — it
queries exactly the three fixed keys `user_id`, `request_id`,
`session_id` (each under the unexported `contextKey` type), each
present key contributing its own binding; every extracted key is one of
the three; a nil context is a normal non-error input yielding zero
fields. -/
theorem context_extraction_fixed_keys :
    extractContextValues none = [] ∧
    (∀ ctx : Option Context, ∀ k ∈ attrKeys (extractContextValues ctx), k ∈ contextKeys) ∧
    (∀ c : Context,
      extractContextValues (some c) =
        (match ctxValue c (GoKey.ctxKey "user_id") with
         | some v => [("user_id", v)] | none => []) ++
        (match ctxValue c (GoKey.ctxKey "request_id") with
         | some v => [("request_id", v)] | none => []) ++
        (match ctxValue c (GoKey.ctxKey "session_id") with
         | some v => [("session_id", v)] | none => [])) :=
  ⟨rfl, attrKeys_extractContextValues, extractContextValues_some_eq⟩

/-- Concrete instance of the amended C6: a typed `user_id` binding is
extracted as the single attribute. -/
theorem context_extraction_fixed_keys_witness :
    extractContextValues (some [(GoKey.ctxKey "user_id", GoValue.vStr "12345")]) =
      [("user_id", GoValue.vStr "12345")] := by
  rw [context_extraction_fixed_keys.2.2 [(GoKey.ctxKey "user_id", GoValue.vStr "12345")]]
  rfl

end ClaimC6

section ClaimC5

/-- Claim C5: in every serialized entry the `code` and `duration` keys
are present exactly when non-zero and `attributes` exactly when
non-empty; a plain `Log` call (code 0, duration 0) never emits
`code`/`duration`; a `LogHTTP` call with code 0 and duration 0.0 also
omits them; a `LogHTTP` call with code 404 emits `code:404`. -/
theorem conditional_omission_fields :
    (∀ (pkgName funcName : String) (ctx : Option Context) (level : Int) (msg : String)
        (tPid tStamp : GoTime),
      "code" ∉ (entryFields (entryOf pkgName funcName ctx level msg 0 0 tPid tStamp)).map
          Prod.fst ∧
      "duration" ∉ (entryFields (entryOf pkgName funcName ctx level msg 0 0 tPid tStamp)).map
          Prod.fst) ∧
    (∀ e : LogEntry,
      ("code" ∈ (entryFields e).map Prod.fst ↔ e.code ≠ 0) ∧
      ("duration" ∈ (entryFields e).map Prod.fst ↔ e.duration ≠ 0) ∧
      ("attributes" ∈ (entryFields e).map Prod.fst ↔ e.attributes.isEmpty = false)) ∧
    ("code", toString (404 : Int)) ∈
      entryFields (entryOf "p" "f" none 1 "m" 404 (1 / 2 : Rat) wTime wTime) := by
  refine ⟨?_, ?_, ?_⟩
  · intro pkgName funcName ctx level msg tPid tStamp
    constructor <;>
      by_cases ha : (extractContextValues ctx).isEmpty <;>
        simp [entryFields, entryOf, ha]
  · intro e
    refine ⟨?_, ?_, ?_⟩ <;>
      by_cases h1 : e.code = 0 <;> by_cases h2 : e.duration = 0 <;>
        by_cases h3 : e.attributes.isEmpty <;>
          simp [entryFields, h1, h2, h3]
  · decide

/-- Concrete instance of C5: a plain Log entry with an absent context
carries no `code` key. -/
theorem conditional_omission_fields_witness :
    "code" ∉ (entryFields (entryOf "main" "main" none 1 "hello" 0 0 wTime wTime)).map
      Prod.fst :=
  (conditional_omission_fields.1 "main" "main" none 1 "hello" wTime wTime).1

end ClaimC5

section ClaimC10

/-- Claim C10: the `pid` field of every emitted entry is the call's
wall-clock time formatted at one-second precision in the
`"20060102150405"` layout (14 digits, for the field ranges a wall clock
produces), so any two entries within the same second carry identical
pids — pid is neither a process id nor unique per event. -/
theorem pid_second_precision :
    (∀ (pkgName funcName : String) (ctx : Option Context) (level : Int) (msg : String)
        (code : Int) (duration : Rat) (tPid tStamp : GoTime),
      (entryOf pkgName funcName ctx level msg code duration tPid tStamp).pid
        = formatCompact tPid) ∧
    (∀ t t' : GoTime, t.year = t'.year → t.month = t'.month → t.day = t'.day →
      t.hour = t'.hour → t.minute = t'.minute → t.second = t'.second →
      formatCompact t = formatCompact t') ∧
    formatCompact ⟨2026, 1, 1, 0, 0, 0, 0⟩ = formatCompact ⟨2026, 1, 1, 0, 0, 0, 999999999⟩ ∧
    (∀ t : GoTime, t.year ≤ 9999 → t.month ≤ 99 → t.day ≤ 99 → t.hour ≤ 99 →
      t.minute ≤ 99 → t.second ≤ 99 →
      (formatCompact t).length = 14 ∧ ∀ ch ∈ (formatCompact t).data, ch.isDigit = true) := by
  have l4 : ∀ n : Nat, n ≤ 9999 → (padTo 4 n).length = 4 := by
    intro n hn
    apply padTo_length
    apply decRepr_len_le n 4 ?_ (by norm_num)
    norm_num
    omega
  have l2 : ∀ n : Nat, n ≤ 99 → (padTo 2 n).length = 2 := by
    intro n hn
    apply padTo_length
    apply decRepr_len_le n 2 ?_ (by norm_num)
    norm_num
    omega
  refine ⟨fun _ _ _ _ _ _ _ _ _ => rfl, ?_, rfl, ?_⟩
  · intro t t' h1 h2 h3 h4 h5 h6
    obtain ⟨y, mo, d, hr, mi, s, na⟩ := t
    obtain ⟨y', mo', d', hr', mi', s', na'⟩ := t'
    simp only at h1 h2 h3 h4 h5 h6
    subst h1; subst h2; subst h3; subst h4; subst h5; subst h6
    rfl
  · intro t hy hmo hd hh hmi hs
    constructor
    · unfold formatCompact
      rw [String.length_append, String.length_append, String.length_append,
        String.length_append, String.length_append]
      rw [l4 _ hy, l2 _ hmo, l2 _ hd, l2 _ hh, l2 _ hmi, l2 _ hs]
    · intro ch hch
      unfold formatCompact at hch
      simp only [String.data_append, List.mem_append] at hch
      rcases hch with ((((h | h) | h) | h) | h) | h <;>
        exact padTo_all_digits _ _ ch h

/-- Concrete instance of C10: two instants in the same wall-clock second
with different nanosecond fields produce the same pid, of length 14. -/
theorem pid_second_precision_witness :
    formatCompact ⟨2026, 10, 11, 8, 30, 5, 1⟩ = formatCompact ⟨2026, 10, 11, 8, 30, 5, 2⟩ ∧
    (formatCompact wTime).length = 14 :=
  ⟨pid_second_precision.2.1 ⟨2026, 10, 11, 8, 30, 5, 1⟩ ⟨2026, 10, 11, 8, 30, 5, 2⟩
      rfl rfl rfl rfl rfl rfl,
    (pid_second_precision.2.2.2 wTime (by decide) (by decide) (by decide) (by decide)
      (by decide) (by decide)).1⟩

end ClaimC10

section ClaimC4

/-- Claim C4 is false on the code in its lock-release clause: on a
Fatal-level call the trace is lock, write, `os.Exit(1)` — the process
terminates with no unlock event before (or after) the exit, because
`os.Exit` bypasses the deferred `Unlock`.  The claim asserts the
termination happens after the lock is released. -/
theorem fatal_exit_holds_lock_counterexample :
    Ev.exit 1 ∈ logInternal "main" "main" none 4 "boom" 0 0 wTime wTime ∧
    Ev.unlock ∉ logInternal "main" "main" none 4 "boom" 0 0 wTime wTime := by
  decide

/-- Claim C4 amended: a call triggers process termination iff its
severity is the maximal Fatal level and the entry serialized
successfully; the termination follows the successful write with exit
status 1 (non-zero) while the lock is still held — the deferred unlock
is bypassed by `os.Exit`, so no unlock precedes the exit. -/
theorem fatal_exit_after_write :
    ∀ (pkgName funcName : String) (ctx : Option Context) (level : Int) (msg : String)
      (code : Int) (duration : Rat) (tPid tStamp : GoTime),
      (Ev.exit 1 ∈ logInternal pkgName funcName ctx level msg code duration tPid tStamp ↔
        (level = Fatal ∧ attrsSerializable (extractContextValues ctx) = true)) ∧
      (level = Fatal → attrsSerializable (extractContextValues ctx) = true →
        logInternal pkgName funcName ctx level msg code duration tPid tStamp =
          [Ev.lock,
           Ev.writeSink
             (renderEntry (entryOf pkgName funcName ctx level msg code duration tPid tStamp)),
           Ev.exit 1] ∧
        Ev.unlock ∉ logInternal pkgName funcName ctx level msg code duration tPid tStamp) := by
  intro pkgName funcName ctx level msg code duration tPid tStamp
  by_cases hser : attrsSerializable (extractContextValues ctx) = true <;>
    by_cases hlev : level = Fatal <;>
      simp [logInternal, marshalEntry, entryOf, hser, hlev]

/-- Concrete instance of the amended C4 at a Fatal, serializable call. -/
theorem fatal_exit_after_write_witness :
    logInternal "svc" "run" none 4 "fatal msg" 0 0 wTime wTime =
      [Ev.lock,
       Ev.writeSink (renderEntry (entryOf "svc" "run" none 4 "fatal msg" 0 0 wTime wTime)),
       Ev.exit 1] ∧
    Ev.unlock ∉ logInternal "svc" "run" none 4 "fatal msg" 0 0 wTime wTime :=
  (fatal_exit_after_write "svc" "run" none 4 "fatal msg" 0 0 wTime wTime).2 rfl rfl

end ClaimC4

section ClaimC7

/-- Claim C7 is false on the code: when serialization fails the
diagnostic is written through `lg.logger` — the same logger that wraps
the primary sink — so the primary sink does receive a (non-JSON) line,
and nothing goes to a separate fallback channel such as standard
error. -/
theorem marshal_failure_writes_sink_counterexample :
    writesOf (logInternal "main" "main" badCtx 1 "m" 0 0 wTime wTime) =
      ["Could not marshal log entry: json: unsupported type"] ∧
    logInternal "main" "main" badCtx 1 "m" 0 0 wTime wTime =
      [Ev.lock, Ev.writeSink "Could not marshal log entry: json: unsupported type",
       Ev.unlock] := by
  decide

/-- Claim C7 amended: if serialization of an entry fails, the failure is
reported by writing a plain-text diagnostic line through the same
logger to the primary sink; the entry itself is not written, the
process does not exit (even at Fatal severity), and the call returns
normally, releasing the lock. -/
theorem marshal_failure_diagnostic_to_sink :
    ∀ (pkgName funcName : String) (ctx : Option Context) (level : Int) (msg : String)
      (code : Int) (duration : Rat) (tPid tStamp : GoTime),
      attrsSerializable (extractContextValues ctx) = false →
      logInternal pkgName funcName ctx level msg code duration tPid tStamp =
        [Ev.lock, Ev.writeSink ("Could not marshal log entry: " ++ marshalErrMsg),
         Ev.unlock] := by
  intro pkgName funcName ctx level msg code duration tPid tStamp h
  simp [logInternal, marshalEntry, entryOf, h]

/-- Concrete instance of the amended C7 at a non-serializable context. -/
theorem marshal_failure_diagnostic_to_sink_witness :
    logInternal "svc" "op" badCtx 2 "warn msg" 0 0 wTime wTime =
      [Ev.lock, Ev.writeSink ("Could not marshal log entry: " ++ marshalErrMsg),
       Ev.unlock] :=
  marshal_failure_diagnostic_to_sink "svc" "op" badCtx 2 "warn msg" 0 0 wTime wTime rfl

end ClaimC7

section ClaimC8

/-- Claim C8: calling Close twice never panics or corrupts state: the
first call on an open logger succeeds, the second returns the
"file already closed" error value (`Close` never nils the `file`
field, so it reaches `file.Close()` again, which errors rather than
panicking), the state stays a closed handle, and neither call writes a
line to the sink. -/
theorem double_close_safe :
    ∀ lg : LoggerState, lg.file = some { closed := false } →
      closeErr lg = none ∧
      closeErr (closeState lg) = some "file already closed" ∧
      closeState (closeState lg) = { file := some { closed := true } } ∧
      writesOf (closeTrace lg) = [] ∧
      writesOf (closeTrace (closeState lg)) = [] := by
  intro lg h
  refine ⟨?_, ?_, ?_, rfl, rfl⟩ <;> simp [closeErr, closeState, h]

/-- Concrete instance of C8 at a freshly constructed logger. -/
theorem double_close_safe_witness :
    closeErr newLoggerState = none ∧
    closeErr (closeState newLoggerState) = some "file already closed" ∧
    closeState (closeState newLoggerState) = { file := some { closed := true } } ∧
    writesOf (closeTrace newLoggerState) = [] ∧
    writesOf (closeTrace (closeState newLoggerState)) = [] :=
  double_close_safe newLoggerState rfl

end ClaimC8

section ClaimC9

theorem lastDotIdx_eq_none_iff (cs : List Char) :
    lastDotIdx cs = none ↔ '.' ∉ cs := by
  induction cs with
  | nil => simp [lastDotIdx]
  | cons c rest ih =>
      unfold lastDotIdx
      cases h : lastDotIdx rest with
      | some i =>
          have hdot : '.' ∈ rest := by
            by_contra hc
            rw [← ih] at hc
            rw [h] at hc
            cases hc
          simp [hdot]
      | none =>
          have hnd : '.' ∉ rest := ih.mp h
          by_cases hc : c = '.'
          · subst hc
            simp
          · have : ¬ '.' = c := fun hh => hc hh.symm
            simp [hc, this, hnd]

theorem lastDotIdx_spec (cs : List Char) :
    ∀ i : Nat, lastDotIdx cs = some i →
      cs.take i ++ '.' :: cs.drop (i + 1) = cs ∧ '.' ∉ cs.drop (i + 1) := by
  induction cs with
  | nil =>
      intro i h
      simp [lastDotIdx] at h
  | cons c rest ih =>
      intro i h
      unfold lastDotIdx at h
      cases hr : lastDotIdx rest with
      | some j =>
          rw [hr] at h
          injection h with h
          subst h
          obtain ⟨hsplit, hnot⟩ := ih j hr
          constructor
          · rw [List.take_succ_cons, List.drop_succ_cons]
            rw [List.cons_append]
            rw [show rest.drop (j + 1) = List.drop (j + 1) rest from rfl] at hsplit
            rw [hsplit]
          · rw [List.drop_succ_cons]
            exact hnot
      | none =>
          rw [hr] at h
          by_cases hc : c = '.'
          · rw [if_pos hc] at h
            injection h with h
            subst h
            subst hc
            refine ⟨by simp, ?_⟩
            simpa using (lastDotIdx_eq_none_iff rest).mp hr
          · rw [if_neg hc] at h
            cases h

theorem lastDotIdx_isSome_of_mem (cs : List Char) (h : '.' ∈ cs) :
    ∃ i, lastDotIdx cs = some i := by
  cases hl : lastDotIdx cs with
  | none => exact absurd h ((lastDotIdx_eq_none_iff cs).mp hl)
  | some i => exact ⟨i, rfl⟩

/-- Claim C9 is false on the code: caller attribution is not total.
When the resolved symbol name contains no separator (the backwards scan
leaves `lastDot = -1`), the slice `fullName[:lastDot]` is out of range —
modelled as the `none` result — so the function panics instead of
degrading. -/
theorem caller_info_dotless_counterexample :
    (getCallerInfo (some (some "main"))).isSome = false := rfl

/-- Claim C9 amended: `getCallerInfo` returns ("unknown","unknown")
when stack introspection is unavailable or the function symbol is nil,
and for any resolved name containing a separator it splits the name at
its last '.' into a component prefix and an operation suffix (the
suffix containing no further separator); only a separator-free name
makes the final slicing panic. -/
theorem caller_info_split_or_unknown :
    getCallerInfo none = some ("unknown", "unknown") ∧
    getCallerInfo (some none) = some ("unknown", "unknown") ∧
    (∀ s : String, '.' ∈ s.data →
      ∃ p f : String, getCallerInfo (some (some s)) = some (p, f) ∧
        p.data ++ '.' :: f.data = s.data ∧ '.' ∉ f.data) := by
  refine ⟨rfl, rfl, ?_⟩
  intro s hs
  obtain ⟨i, hi⟩ := lastDotIdx_isSome_of_mem s.data hs
  obtain ⟨hsplit, hnot⟩ := lastDotIdx_spec s.data i hi
  refine ⟨String.mk (s.data.take i), String.mk (s.data.drop (i + 1)), ?_, ?_, ?_⟩
  · simp only [getCallerInfo]
    rw [hi]
  · exact hsplit
  · exact hnot

/-- Concrete instance of the amended C9 at the symbol "main.main". -/
theorem caller_info_split_or_unknown_witness :
    ∃ p f : String, getCallerInfo (some (some "main.main")) = some (p, f) ∧
      p.data ++ '.' :: f.data = "main.main".data ∧ '.' ∉ f.data :=
  caller_info_split_or_unknown.2.2 "main.main" (by decide)

end ClaimC9

section ClaimC2

theorem callOk_trace (c : LogCall) (h : callOk c = true) :
    callTrace c = [Ev.lock, Ev.writeSink (callLine c), Ev.unlock] := by
  unfold callOk at h
  rw [Bool.and_eq_true] at h
  obtain ⟨hser, hlev⟩ := h
  have hl4 : ¬ c.level = 4 := by simpa using hlev
  unfold callTrace
  simp [logInternal, marshalEntry, entryOf, hser, Fatal, hl4, callLine, callEntry]

theorem writesOf_callOk (c : LogCall) (h : callOk c = true) :
    writesOf (callTrace c) = [callLine c] := by
  rw [callOk_trace c h]
  rfl

theorem hasExit_callOk (c : LogCall) (h : callOk c = true) :
    hasExit (callTrace c) = false := by
  rw [callOk_trace c h]
  rfl

theorem popThread_flatten_perm :
    ∀ (i : Nat) (ths ths' : List (List LogCall)) (c : LogCall),
      popThread i ths = some (c, ths') → (c :: ths'.flatten).Perm ths.flatten := by
  intro i
  induction i with
  | zero =>
      intro ths ths' c h
      cases ths with
      | nil => simp [popThread] at h
      | cons th rest =>
          cases th with
          | nil => simp [popThread] at h
          | cons c0 tl =>
              simp only [popThread, Option.some.injEq, Prod.mk.injEq] at h
              obtain ⟨rfl, rfl⟩ := h
              exact List.Perm.refl _
  | succ i ih =>
      intro ths ths' c h
      cases ths with
      | nil => simp [popThread] at h
      | cons th rest =>
          cases hr : popThread i rest with
          | none =>
              simp only [popThread, hr] at h
              exact Option.noConfusion h
          | some pr =>
              obtain ⟨c2, rest2⟩ := pr
              simp only [popThread, hr, Option.some.injEq, Prod.mk.injEq] at h
              obtain ⟨hc, hths⟩ := h
              subst hths
              rw [hc] at hr
              have hperm := ih rest rest2 c hr
              have h1 : (c :: (th ++ rest2.flatten)).Perm (th ++ c :: rest2.flatten) :=
                List.perm_middle.symm
              have h2 : (th ++ c :: rest2.flatten).Perm (th ++ rest.flatten) :=
                List.Perm.append_left th hperm
              exact h1.trans h2

theorem runSched_nil_eq (ths : List (List LogCall)) (acc : List String) :
    runSched [] ths acc = if ths.all List.isEmpty then some acc else none := rfl

theorem runSched_cons_eq (i : Nat) (rest : List Nat) (ths : List (List LogCall))
    (acc : List String) :
    runSched (i :: rest) ths acc =
      match popThread i ths with
      | none => none
      | some (c, ths') =>
          if hasExit (callTrace c) then some (acc ++ writesOf (callTrace c))
          else runSched rest ths' (acc ++ writesOf (callTrace c)) := rfl

theorem runSched_writes :
    ∀ (sched : List Nat) (ths : List (List LogCall)) (acc sink : List String),
      (∀ c ∈ ths.flatten, callOk c = true) →
      runSched sched ths acc = some sink →
      ∃ seq : List LogCall, seq.Perm ths.flatten ∧ sink = acc ++ seq.map callLine := by
  intro sched
  induction sched with
  | nil =>
      intro ths acc sink hok hrun
      rw [runSched_nil_eq] at hrun
      by_cases hemp : ths.all List.isEmpty
      · rw [if_pos hemp] at hrun
        injection hrun with hrun
        subst hrun
        refine ⟨[], ?_, by simp⟩
        have hflat : ths.flatten = [] := by
          rw [List.flatten_eq_nil_iff]
          intro l hl
          rw [List.all_eq_true] at hemp
          have := hemp l hl
          simpa [List.isEmpty_iff] using this
        rw [hflat]
      · rw [if_neg hemp] at hrun
        cases hrun
  | cons i rest ih =>
      intro ths acc sink hok hrun
      rw [runSched_cons_eq] at hrun
      cases hp : popThread i ths with
      | none =>
          rw [hp] at hrun
          cases hrun
      | some pr =>
          obtain ⟨c, ths2⟩ := pr
          rw [hp] at hrun
          have hperm := popThread_flatten_perm i ths ths2 c hp
          have hmem : c ∈ ths.flatten := hperm.subset (List.mem_cons_self c _)
          have hcok := hok c hmem
          have hrun2 :
              (if hasExit (callTrace c) then some (acc ++ writesOf (callTrace c))
               else runSched rest ths2 (acc ++ writesOf (callTrace c))) = some sink := hrun
          rw [hasExit_callOk c hcok] at hrun2
          simp only [Bool.false_eq_true, if_false] at hrun2
          rw [writesOf_callOk c hcok] at hrun2
          have hok2 : ∀ c' ∈ ths2.flatten, callOk c' = true := fun c' hc' =>
            hok c' (hperm.subset (List.mem_cons_of_mem _ hc'))
          obtain ⟨seq, hseqperm, hsink⟩ := ih ths2 (acc ++ [callLine c]) sink hok2 hrun2
          refine ⟨c :: seq, (hseqperm.cons c).trans hperm, ?_⟩
          rw [hsink]
          simp

/-- Claim C2: N concurrent callers each issuing M serializable,
non-terminating Log/LogHTTP calls against one shared-lock Logger leave
exactly N×M complete lines in the sink, one full line per call in
lock-acquisition order (the schedule), with no interleaved partial
lines: the sink is exactly the image of some interleaving of the
per-thread call sequences under the one-call-one-line map. -/
theorem concurrent_log_serialization :
    ∀ (N M : Nat) (ths : List (List LogCall)) (sched : List Nat) (sink : List String),
      ths.length = N →
      (∀ th ∈ ths, th.length = M) →
      (∀ c ∈ ths.flatten, callOk c = true) →
      runSched sched ths [] = some sink →
      ∃ seq : List LogCall, seq.Perm ths.flatten ∧ sink = seq.map callLine ∧
        sink.length = N * M ∧
        ∀ line ∈ sink, ∃ c ∈ ths.flatten, line = callLine c := by
  intro N M ths sched sink hN hM hok hrun
  obtain ⟨seq, hperm, hsink⟩ := runSched_writes sched ths [] sink hok hrun
  rw [List.nil_append] at hsink
  have hlines : ∀ line ∈ sink, ∃ c ∈ ths.flatten, line = callLine c := by
    intro line hline
    rw [hsink] at hline
    obtain ⟨c, hc, rfl⟩ := List.mem_map.mp hline
    exact ⟨c, hperm.subset hc, rfl⟩
  refine ⟨seq, hperm, hsink, ?_, hlines⟩
  rw [hsink, List.length_map, hperm.length_eq, List.length_flatten]
  have hrepl : ths.map List.length = List.replicate N M := by
    rw [List.eq_replicate_iff]
    constructor
    · rw [List.length_map, hN]
    · intro b hb
      obtain ⟨th, hth, rfl⟩ := List.mem_map.mp hb
      exact hM th hth
  rw [hrepl, List.sum_replicate, smul_eq_mul]

/-- Concrete instance of C2: two threads of one call each, scheduled
thread 0 then thread 1, leave exactly 2×1 lines, each the complete line
of one call. -/
theorem concurrent_log_serialization_witness :
    ∃ seq : List LogCall, seq.Perm ([[wCall], [wCall]] : List (List LogCall)).flatten ∧
      [callLine wCall, callLine wCall] = seq.map callLine ∧
      ([callLine wCall, callLine wCall] : List String).length = 2 * 1 ∧
      ∀ line ∈ [callLine wCall, callLine wCall],
        ∃ c ∈ ([[wCall], [wCall]] : List (List LogCall)).flatten, line = callLine c :=
  concurrent_log_serialization 2 1 [[wCall], [wCall]] [0, 1]
    [callLine wCall, callLine wCall] rfl
    (by decide) (by decide) rfl

end ClaimC2
